import Mathlib

/-!
Shallow embedding of the supplier-matching backend (`backend/app`): the INN
normalizer (`utils.normalize_inn`), the data model (`models.py`), and the
endpoint bodies of `main.py` that the verified claims are about.  Machine
state is a `DB` record of entity lists plus autoincrement counters; each
endpoint becomes a pure function on `DB`, returning `Except` where the
endpoint can raise `HTTPException` (an exception means the session is not
committed, so the caller observes an unchanged database).  Timestamps are
abstract `Nat` clock readings passed in by the caller, mirroring
`datetime.utcnow()` being external input.
-/

set_option maxRecDepth 8192

namespace SupplierMatchingMVP

/-- Status enum of a supplier mapping (models.SupplierMappingStatus). -/
inductive SupplierMappingStatus where
  | PENDING
  | APPROVED
  | REJECTED
  deriving DecidableEq, Repr

/-- Decision enum of a moderation event (models.ModerationDecision). -/
inductive ModerationDecision where
  | APPROVED
  | REJECTED
  deriving DecidableEq, Repr

/-- String value of a status, mirroring the Python `str`-enum `.value`. -/
def statusStr : SupplierMappingStatus → String
  | .PENDING => "PENDING"
  | .APPROVED => "APPROVED"
  | .REJECTED => "REJECTED"

/-- Normalizer from utils.py: strip non-digits, flag anything that is not
exactly 10 or 12 digits as invalid; empty input or no digits yields `none`. -/
def normalize_inn : Option String → Option String × Bool
  | none => (none, true)
  | some inn =>
    if inn = "" then (none, true)
    else
      let digits := String.mk (inn.toList.filter Char.isDigit)
      if digits.length = 10 ∨ digits.length = 12 then (some digits, false)
      else if digits = "" then (none, true)
      else (some digits, true)

/-- Digit characters remaining in an input after stripping, `""` for null. -/
def digitsOf : Option String → String
  | none => ""
  | some s => String.mk (s.toList.filter Char.isDigit)

/-- Validity flag an INN-normalization result determines: `none` is always
invalid, a digit string is valid exactly when its length is 10 or 12. -/
def innFlagOf : Option String → Bool
  | none => true
  | some s => decide (s.length ≠ 10 ∧ s.length ≠ 12)

/-- Fixed reject-reason code→label table from main.py. -/
def REJECTION_REASONS : List (String × String) :=
  [("WRONG_INN", "ИНН указан неверно"),
   ("WRONG_SUPPLIER", "Выбран неверный поставщик"),
   ("NEED_MORE_INFO", "Недостаточно данных, уточните информацию"),
   ("SUPPLIER_NOT_FOUND", "Поставщик отсутствует в справочнике"),
   ("DUPLICATE_REQUEST", "Дубликат заявки")]

/-- Lookup in the reason table (Python `dict.get` without default). -/
def rejectionReasonsGet (code : String) : Option String :=
  (REJECTION_REASONS.find? (fun p => p.1 == code)).map Prod.snd

/-- An imported price-list row (models.PriceItem). -/
structure PriceItem where
  id : Nat
  owner_id : String
  packet_id : String
  inn : String
  inn_norm : Option String
  inn_invalid : Bool
  std_supplier : String
  item_id : Option String
  created_at : Nat
  deriving DecidableEq, Repr

/-- A deduplicated reconciliation group (models.PriceSupplierGroup). -/
structure PriceSupplierGroup where
  id : Nat
  owner_id : String
  packet_id : String
  inn_norm : Option String
  std_supplier_raw : String
  items_count : Nat
  inn_invalid : Bool
  created_at : Nat
  updated_at : Nat
  deriving DecidableEq, Repr

/-- A canonical supplier directory entry (models.Supplier). -/
structure Supplier where
  id : Nat
  supplier : String
  inn : String
  kpp : Option String
  country : Option String
  city : Option String
  address : Option String
  url : Option String
  branch : Option String
  created_at : Nat
  deriving DecidableEq, Repr

/-- A seller's proposed mapping of a group to a supplier
(models.SupplierMapping). -/
structure SupplierMapping where
  id : Nat
  group_id : Nat
  canonical_supplier_id : Nat
  owner_id : String
  packet_id : String
  status : SupplierMappingStatus
  created_at : Nat
  updated_at : Nat
  approved_at : Option Nat
  approved_by : Option String
  rejected_at : Option Nat
  rejected_by : Option String
  reject_reason : Option String
  std_supplier_raw : String
  inn_norm : Option String
  deriving DecidableEq, Repr

/-- An append-only audit record of a moderation decision
(models.ModerationEvent). -/
structure ModerationEvent where
  id : Nat
  owner_id : String
  packet_id : String
  supplier_group_id : Nat
  mapping_id : Option Nat
  decision : ModerationDecision
  decided_at : Nat
  decided_by : String
  reject_reason_code : Option String
  reject_reason_label : Option String
  reject_comment_internal : Option String
  deriving DecidableEq, Repr

/-- The persistent store: one list per table plus autoincrement counters. -/
structure DB where
  items : List PriceItem
  groups : List PriceSupplierGroup
  suppliers : List Supplier
  mappings : List SupplierMapping
  events : List ModerationEvent
  next_item_id : Nat
  next_group_id : Nat
  next_supplier_id : Nat
  next_mapping_id : Nat
  next_event_id : Nat
  deriving DecidableEq, Repr

/-- The freshly initialised store. -/
def emptyDB : DB :=
  { items := [], groups := [], suppliers := [], mappings := [], events := [],
    next_item_id := 1, next_group_id := 1, next_supplier_id := 1,
    next_mapping_id := 1, next_event_id := 1 }

/-- Error taxonomy of the endpoints: HTTP 404, 400, 401, and an uncaught
storage-layer IntegrityError surfacing as a 500 with the session rolled
back. -/
inductive ApiError where
  | NotFound
  | BadRequest
  | Unauthorized
  | ServerError
  deriving DecidableEq, Repr

/-- Request body of the import endpoint (schemas.PriceItemImport). -/
structure PriceItemImport where
  ownerId : String
  packetId : String
  inn : Option String
  std_supplier : String
  itemId : Option String
  deriving DecidableEq, Repr

/-- Request body of the reject endpoint (schemas.RejectRequest). -/
structure RejectRequest where
  reason_code : String
  comment_internal : Option String
  deriving DecidableEq, Repr

/-- Request body of the supplier-create endpoint (schemas.SupplierCreate). -/
structure SupplierCreate where
  supplier : String
  inn : String
  kpp : Option String
  country : Option String
  city : Option String
  address : Option String
  url : Option String
  branch : Option String
  deriving DecidableEq, Repr

/-- Group-lookup predicate of import_price_items: the SQL where-clause on
(owner_id, packet_id, inn_norm, std_supplier_raw).  SQLAlchemy renders a
comparison against the Python value `None` as `IS NULL`, so equality on the
optional `inn_norm` treats `none` as a key value equal to itself. -/
def groupKeyMatches (o p : String) (k : Option String) (s : String)
    (g : PriceSupplierGroup) : Bool :=
  g.owner_id == o && g.packet_id == p && g.inn_norm == k && g.std_supplier_raw == s

/-- One iteration of the loop body of main.import_price_items: persist the
row, find-or-create its group, then bump the group's count, refresh its
invalid flag, and touch its updated_at. -/
def import_one (db : DB) (now : Nat) (payload : PriceItemImport) : DB :=
  let r := normalize_inn payload.inn
  let pi : PriceItem :=
    { id := db.next_item_id, owner_id := payload.ownerId,
      packet_id := payload.packetId, inn := payload.inn.getD "",
      inn_norm := r.1, inn_invalid := r.2, std_supplier := payload.std_supplier,
      item_id := payload.itemId, created_at := now }
  let db1 : DB := { db with items := db.items ++ [pi],
                            next_item_id := db.next_item_id + 1 }
  match db1.groups.find?
      (groupKeyMatches payload.ownerId payload.packetId r.1 payload.std_supplier) with
  | some g =>
    { db1 with groups := db1.groups.map (fun x =>
        if x.id == g.id then
          { x with items_count := x.items_count + 1, inn_invalid := r.2,
                   updated_at := now }
        else x) }
  | none =>
    let g0 : PriceSupplierGroup :=
      { id := db1.next_group_id, owner_id := payload.ownerId,
        packet_id := payload.packetId, inn_norm := r.1,
        std_supplier_raw := payload.std_supplier, items_count := 0,
        inn_invalid := r.2, created_at := now, updated_at := now }
    let g1 := { g0 with items_count := g0.items_count + 1, inn_invalid := r.2,
                        updated_at := now }
    { db1 with groups := db1.groups ++ [g1],
               next_group_id := db1.next_group_id + 1 }

/-- Endpoint POST /api/import/price_items: fold the loop body over the batch
(the handler takes one `utcnow()` reading for the whole batch) and report the
number of rows imported. -/
def import_price_items (db : DB) (now : Nat) (items : List PriceItemImport) :
    DB × Nat :=
  (items.foldl (fun d payload => import_one d now payload) db, items.length)

/-- A run of import calls, each with its own clock reading. -/
def import_seq (db : DB) (ops : List (Nat × PriceItemImport)) : DB :=
  ops.foldl (fun d op => import_one d op.1 op.2) db

/-- Helper log_moderation_event of main.py: build the append-only audit
record.  The label is looked up in the fixed table with no default (a falsy
code yields no lookup at all), unlike the response label of the reject
endpoint. -/
def log_moderation_event (event_id : Nat) (mapping : SupplierMapping)
    (decision : ModerationDecision) (decided_at : Nat) (admin_user : String)
    (reject_reason_code : Option String)
    (reject_comment_internal : Option String) : ModerationEvent :=
  let reason_label : Option String :=
    match reject_reason_code with
    | some code => if code = "" then none else rejectionReasonsGet code
    | none => none
  { id := event_id, owner_id := mapping.owner_id,
    packet_id := mapping.packet_id, supplier_group_id := mapping.group_id,
    mapping_id := some mapping.id, decision := decision,
    decided_at := decided_at, decided_by := admin_user,
    reject_reason_code := reject_reason_code,
    reject_reason_label := reason_label,
    reject_comment_internal := reject_comment_internal }

/-- The PENDING mapping row create_mapping builds: fresh id, references to
group and supplier, the seller scope, and a snapshot of the group's raw
supplier text and normalized INN. -/
def newMappingFor (db : DB) (now : Nat) (group : PriceSupplierGroup)
    (supplier : Supplier) : SupplierMapping :=
  { id := db.next_mapping_id, group_id := group.id,
    canonical_supplier_id := supplier.id, owner_id := group.owner_id,
    packet_id := group.packet_id, status := .PENDING, created_at := now,
    updated_at := now, approved_at := none, approved_by := none,
    rejected_at := none, rejected_by := none, reject_reason := none,
    std_supplier_raw := group.std_supplier_raw, inn_norm := group.inn_norm }

/-- Endpoint POST /api/seller/mappings (create_mapping), after token
resolution has produced the seller's (owner, packet) scope: 404 unless the
group exists in scope and the supplier exists; otherwise append a PENDING
mapping snapshotting the group's raw-supplier text and normalized INN. -/
def create_mapping (db : DB) (now : Nat) (sellerOwner sellerPacket : String)
    (group_id canonical_supplier_id : Nat) : Except ApiError (DB × Nat) :=
  match db.groups.find? (fun g => g.id == group_id) with
  | none => .error .NotFound
  | some group =>
    if group.owner_id ≠ sellerOwner ∨ group.packet_id ≠ sellerPacket then
      .error .NotFound
    else
      match db.suppliers.find? (fun s => s.id == canonical_supplier_id) with
      | none => .error .NotFound
      | some supplier =>
        let m := newMappingFor db now group supplier
        .ok ({ db with mappings := db.mappings ++ [m],
                       next_mapping_id := db.next_mapping_id + 1 }, m.id)

/-- Field mutations the approve endpoint performs on the pending mapping. -/
def applyApprove (now : Nat) (admin : String) (x : SupplierMapping) :
    SupplierMapping :=
  { x with status := SupplierMappingStatus.APPROVED, approved_at := some now,
           approved_by := some admin, updated_at := now }

/-- Endpoint POST /api/admin/mappings/.../approve: 404 unless the mapping
exists and is PENDING; otherwise set APPROVED with actor and timestamps and
append one APPROVED moderation event, atomically. -/
def approve_mapping (db : DB) (now : Nat) (admin : String) (mapping_id : Nat) :
    Except ApiError (DB × SupplierMappingStatus) :=
  match db.mappings.find? (fun m => m.id == mapping_id) with
  | none => .error .NotFound
  | some mapping =>
    if mapping.status ≠ .PENDING then .error .NotFound
    else
      let m2 := applyApprove now admin mapping
      let ev := log_moderation_event db.next_event_id m2 .APPROVED now admin
                  none none
      .ok ({ db with
               mappings := db.mappings.map (fun x =>
                 if x.id == mapping.id then applyApprove now admin x else x),
               events := db.events ++ [ev],
               next_event_id := db.next_event_id + 1 },
             SupplierMappingStatus.APPROVED)

/-- Field mutations the reject endpoint performs on the pending mapping. -/
def applyReject (now : Nat) (admin : String) (rc : String)
    (x : SupplierMapping) : SupplierMapping :=
  { x with status := SupplierMappingStatus.REJECTED, rejected_at := some now,
           rejected_by := some admin, updated_at := now,
           reject_reason := some rc }

/-- Endpoint POST /api/admin/mappings/.../reject: 404 unless PENDING, 400 if
no non-empty reason code arrives via body or query; otherwise set REJECTED
with actor, timestamps and reason code, append one REJECTED moderation event,
and answer with the label resolved from the fixed table with the code itself
as default. -/
def reject_mapping (db : DB) (now : Nat) (admin : String) (mapping_id : Nat)
    (payload : Option RejectRequest) (reason : Option String) :
    Except ApiError (DB × SupplierMappingStatus × String) :=
  match db.mappings.find? (fun m => m.id == mapping_id) with
  | none => .error .NotFound
  | some mapping =>
    if mapping.status ≠ .PENDING then .error .NotFound
    else
      let reason_code : Option String :=
        match payload with
        | some p => some p.reason_code
        | none => reason
      match reason_code with
      | none => .error .BadRequest
      | some rc =>
        if rc = "" then .error .BadRequest
        else
          let reason_label := (rejectionReasonsGet rc).getD rc
          let m2 := applyReject now admin rc mapping
          let ev := log_moderation_event db.next_event_id m2 .REJECTED now
                      admin (some rc)
                      (payload.bind (fun p => p.comment_internal))
          .ok ({ db with
                   mappings := db.mappings.map (fun x =>
                     if x.id == mapping.id then applyReject now admin rc x
                     else x),
                   events := db.events ++ [ev],
                   next_event_id := db.next_event_id + 1 },
               (SupplierMappingStatus.REJECTED, reason_label))

/-- Endpoint POST /api/admin/suppliers: the pydantic validator keeps only the
digits of the INN and insists on 10 or 12 of them; on success append the
supplier. -/
def create_supplier (db : DB) (now : Nat) (payload : SupplierCreate) :
    Except ApiError (DB × Nat) :=
  let digits := String.mk (payload.inn.toList.filter Char.isDigit)
  if digits.length = 10 ∨ digits.length = 12 then
    let s : Supplier :=
      { id := db.next_supplier_id, supplier := payload.supplier, inn := digits,
        kpp := payload.kpp, country := payload.country, city := payload.city,
        address := payload.address, url := payload.url,
        branch := payload.branch, created_at := now }
    .ok ({ db with suppliers := db.suppliers ++ [s],
                   next_supplier_id := db.next_supplier_id + 1 }, s.id)
  else .error .BadRequest

/-- Endpoint DELETE /api/admin/suppliers/...: 404 when absent.  The handler
itself checks no referencing mappings, but Supplier.mappings is an ORM
relationship without delete cascade, so the delete flush first updates every
referencing mapping's canonical_supplier_id to NULL; that column is declared
non-nullable and NOT NULL is enforced by SQLite regardless of the
foreign-key pragma, so with any referencing mapping the commit raises an
uncaught IntegrityError (500) and the session rolls back — the supplier
survives.  Only an unreferenced supplier is actually removed. -/
def delete_supplier (db : DB) (supplier_id : Nat) : Except ApiError DB :=
  match db.suppliers.find? (fun s => s.id == supplier_id) with
  | none => .error .NotFound
  | some _ =>
    if db.mappings.any (fun m => m.canonical_supplier_id == supplier_id) then
      .error .ServerError
    else
      .ok { db with
            suppliers := db.suppliers.filter (fun s => !(s.id == supplier_id)) }

/-- Observable transition of the delete endpoint: an IntegrityError (or the
404) leaves the store as it was, since the session is never committed. -/
def deleteRun (db : DB) (supplier_id : Nat) : DB × Except ApiError String :=
  match delete_supplier db supplier_id with
  | .ok db2 => (db2, .ok "deleted")
  | .error e => (db, .error e)

/-- Latest (by created_at, SQL order-by descending, first row) element of a
list; on equal keys the earliest listed wins, one of the orders the store may
answer with. -/
def pickLatestBy {α : Type} (key : α → Nat) : List α → Option α
  | [] => none
  | x :: rest =>
    match pickLatestBy key rest with
    | none => some x
    | some b => if key b > key x then some b else some x

/-- Helper latest_mapping_for_group of main.py. -/
def latest_mapping_for_group (db : DB) (group_id : Nat) :
    Option SupplierMapping :=
  pickLatestBy (fun m => m.created_at)
    (db.mappings.filter (fun m => m.group_id == group_id))

/-- Helper last_reject_event_for_group of main.py. -/
def last_reject_event_for_group (db : DB) (group_id : Nat) :
    Option ModerationEvent :=
  pickLatestBy (fun e => e.decided_at)
    (db.events.filter (fun e =>
      e.supplier_group_id == group_id
        && decide (e.decision = ModerationDecision.REJECTED)))

/-- Response shape of the resolver (schemas.PriceSupplierGroupOut). -/
structure PriceSupplierGroupOut where
  id : Nat
  owner_id : String
  packet_id : String
  inn_norm : Option String
  inn_invalid : Bool
  std_supplier_raw : String
  items_count : Nat
  status : String
  canonical_supplier : Option String
  canonical_supplier_id : Option Nat
  latest_status : Option String
  latest_decision_at : Option Nat
  reject_reason_label : Option String
  deriving DecidableEq, Repr

/-- Helper resolve_group_status of main.py: project a group's externally
visible status from its latest mapping and, when rejected, the latest
REJECTED ledger event. -/
def resolve_group_status (db : DB) (group : PriceSupplierGroup) :
    PriceSupplierGroupOut :=
  let base : PriceSupplierGroupOut :=
    { id := group.id, owner_id := group.owner_id, packet_id := group.packet_id,
      inn_norm := group.inn_norm, inn_invalid := group.inn_invalid,
      std_supplier_raw := group.std_supplier_raw,
      items_count := group.items_count, status := "UNMAPPED",
      canonical_supplier := none, canonical_supplier_id := none,
      latest_status := none, latest_decision_at := none,
      reject_reason_label := none }
  match latest_mapping_for_group db group.id with
  | none => base
  | some mapping =>
    let status_value := statusStr mapping.status
    let canonical_name :=
      (db.suppliers.find? (fun s => s.id == mapping.canonical_supplier_id)).map
        (fun s => s.supplier)
    let withMapping :=
      { base with status := status_value, canonical_supplier := canonical_name,
                  canonical_supplier_id := some mapping.canonical_supplier_id,
                  latest_status := some status_value,
                  latest_decision_at := some mapping.updated_at }
    if status_value = statusStr SupplierMappingStatus.REJECTED then
      match last_reject_event_for_group db group.id with
      | some ev =>
        { withMapping with reject_reason_label := ev.reject_reason_label,
                           latest_decision_at := some ev.decided_at }
      | none => withMapping
    else withMapping

/-- Observable transition of the approve endpoint: an HTTPException rolls the
session back, so an error answer leaves the store as it was. -/
def approveRun (db : DB) (now : Nat) (admin : String) (mapping_id : Nat) :
    DB × Except ApiError SupplierMappingStatus :=
  match approve_mapping db now admin mapping_id with
  | .ok (db2, s) => (db2, .ok s)
  | .error e => (db, .error e)

/-! ## Theorems -/

/-- The validity flag the normalizer emits is determined by the normalized
value it emits: `none` is invalid, a digit string is valid exactly when it
has 10 or 12 characters. -/
theorem normalize_inn_snd_eq_flag (o : Option String) :
    (normalize_inn o).2 = innFlagOf (normalize_inn o).1 := by
  cases o with
  | none => rfl
  | some s =>
    simp only [normalize_inn]
    split
    · rfl
    · split
      · rename_i h
        simp only [innFlagOf]
        exact (decide_eq_false (fun hc => h.elim hc.1 hc.2)).symm
      · split
        · rfl
        · rename_i h h'
          simp only [innFlagOf]
          exact (decide_eq_true
            ⟨fun h1 => h (Or.inl h1), fun h2 => h (Or.inr h2)⟩).symm

/-- C7: normalize_inn never fails and returns, for every input, the stripped
digit string with the 10-or-12-digit validity rule, `none` when no digits
remain or the input is null or empty; including the spec's four examples. -/
theorem normalize_inn_total :
    (∀ o : Option String,
      normalize_inn o =
        (if (digitsOf o).length = 10 ∨ (digitsOf o).length = 12 then
          (some (digitsOf o), false)
        else if digitsOf o = "" then (none, true)
        else (some (digitsOf o), true)))
    ∧ normalize_inn (some "77-01/234567") = (some "7701234567", false)
    ∧ normalize_inn (some "123") = (some "123", true)
    ∧ normalize_inn (some "") = (none, true)
    ∧ normalize_inn none = (none, true) := by
  refine ⟨?_, by decide, by decide, rfl, rfl⟩
  intro o
  cases o with
  | none => rfl
  | some s =>
    by_cases hs : s = ""
    · subst hs; rfl
    · simp only [normalize_inn, digitsOf, hs, if_false]

/-- find? over a mapped list, when the predicate is blind to the mapping. -/
theorem find?_map_of_pred_eq {α β : Type} (f : α → β) (p : α → Bool)
    (q : β → Bool) (l : List α) (hpq : ∀ a, q (f a) = p a) :
    (l.map f).find? q = (l.find? p).map f := by
  induction l with
  | nil => rfl
  | cons a t ih =>
    simp only [List.map_cons, List.find?_cons, hpq a]
    cases hp : p a
    · simpa [hp] using ih
    · simp [hp]

/-- Inversion of a successful approve: the mapping was found and PENDING, the
answer is APPROVED, and the new store is the in-place status update plus one
appended APPROVED ledger event. -/
theorem approve_mapping_ok_inv {db : DB} {now : Nat} {admin : String}
    {mid : Nat} {db2 : DB} {r : SupplierMappingStatus}
    (h : approve_mapping db now admin mid = .ok (db2, r)) :
    ∃ m, db.mappings.find? (fun x => x.id == mid) = some m ∧
      m.status = .PENDING ∧ r = .APPROVED ∧
      db2 = { db with
        mappings := db.mappings.map (fun x =>
          if x.id == m.id then applyApprove now admin x else x),
        events := db.events ++
          [log_moderation_event db.next_event_id (applyApprove now admin m)
            .APPROVED now admin none none],
        next_event_id := db.next_event_id + 1 } := by
  unfold approve_mapping at h
  cases hfind : db.mappings.find? (fun x => x.id == mid) with
  | none => rw [hfind] at h; exact absurd h (by simp)
  | some m =>
    rw [hfind] at h
    by_cases hst : m.status = SupplierMappingStatus.PENDING
    · simp only [hst, ne_eq, not_true_eq_false, if_false, ite_false] at h
      refine ⟨m, rfl, hst, ?_, ?_⟩
      · exact (Prod.mk.injEq _ _ _ _ ▸ (Except.ok.inj h)).2.symm
      · exact ((Prod.mk.injEq _ _ _ _ ▸ (Except.ok.inj h)).1).symm
    · simp [hst] at h

/-- C1: approving a mapping that does not exist or is not PENDING fails with
NotFound, leaves the store (hence the mapping and the ledger) unchanged; in
particular, after a successful approve a second approve of the same mapping
fails and changes nothing. -/
theorem approve_requires_pending :
    (∀ (db : DB) (now : Nat) (admin : String) (mid : Nat),
      (∀ m ∈ db.mappings, m.id = mid → m.status ≠ .PENDING) →
      approveRun db now admin mid = (db, .error .NotFound))
    ∧ (∀ (db : DB) (now : Nat) (admin : String) (mid : Nat) (db2 : DB)
        (r : SupplierMappingStatus) (now2 : Nat) (admin2 : String),
      approve_mapping db now admin mid = .ok (db2, r) →
      approveRun db2 now2 admin2 mid = (db2, .error .NotFound)) := by
  constructor
  · intro db now admin mid h
    unfold approveRun approve_mapping
    cases hfind : db.mappings.find? (fun x => x.id == mid) with
    | none => rfl
    | some m =>
      have hmem := List.mem_of_find?_eq_some hfind
      have hid : m.id = mid := by
        have := List.find?_some hfind
        exact beq_iff_eq.mp this
      have hst := h m hmem hid
      simp [hst]
  · intro db now admin mid db2 r now2 admin2 h
    obtain ⟨m, hfind, hst, hr, hdb2⟩ := approve_mapping_ok_inv h
    have hid : m.id = mid := by
      have := List.find?_some hfind
      exact beq_iff_eq.mp this
    have hfind2 : db2.mappings.find? (fun x => x.id == mid)
        = some (applyApprove now admin m) := by
      rw [hdb2]
      have heq : (db.mappings.map (fun x =>
          if x.id == m.id then applyApprove now admin x else x)).find?
            (fun x => x.id == mid)
          = (db.mappings.find? (fun x => x.id == mid)).map
            (fun x => if x.id == m.id then applyApprove now admin x else x) := by
        refine find?_map_of_pred_eq _ _ _ _ ?_
        intro a
        by_cases ha : a.id == m.id
        · simp [ha, applyApprove]
        · simp [ha]
      rw [heq, hfind]
      simp
    unfold approveRun approve_mapping
    rw [hfind2]
    simp [applyApprove]

/-- Store with a single already-APPROVED mapping, exercising claim C1. -/
def mW1 : SupplierMapping :=
  { id := 1, group_id := 1, canonical_supplier_id := 1, owner_id := "o",
    packet_id := "p", status := .APPROVED, created_at := 0, updated_at := 0,
    approved_at := some 0, approved_by := some "adm", rejected_at := none,
    rejected_by := none, reject_reason := none, std_supplier_raw := "s",
    inn_norm := none }

/-- Store with mW1 as its only mapping. -/
def dbW1 : DB := { emptyDB with mappings := [mW1], next_mapping_id := 2 }

/-- A PENDING variant of mW1. -/
def mW2 : SupplierMapping :=
  { mW1 with status := .PENDING, approved_at := none, approved_by := none }

/-- Store with a single PENDING mapping, on which approve succeeds. -/
def dbW2 : DB := { emptyDB with mappings := [mW2], next_mapping_id := 2 }

/-- Store after successfully approving the pending mapping of dbW2. -/
def dbW2app : DB := (approveRun dbW2 5 "adm" 1).1

theorem approve_requires_pending_witness :
    approveRun dbW1 3 "adm" 1 = (dbW1, .error .NotFound) ∧
    approveRun dbW2app 7 "adm2" 1 = (dbW2app, .error .NotFound) :=
  ⟨approve_requires_pending.1 dbW1 3 "adm" 1 (by decide),
   approve_requires_pending.2 dbW2 5 "adm" 1 dbW2app .APPROVED 7 "adm2" rfl⟩

/-- Inversion of a successful reject: the mapping was found and PENDING, a
non-empty reason code arrived, the answer carries the label resolved with the
code itself as default, and the new store is the in-place update plus one
appended REJECTED ledger event. -/
theorem reject_mapping_ok_inv {db : DB} {now : Nat} {admin : String}
    {mid : Nat} {payload : Option RejectRequest} {reason : Option String}
    {db2 : DB} {r : SupplierMappingStatus × String}
    (h : reject_mapping db now admin mid payload reason = .ok (db2, r)) :
    ∃ m rc, db.mappings.find? (fun x => x.id == mid) = some m ∧
      m.status = .PENDING ∧
      (match payload with
       | some p => some p.reason_code
       | none => reason) = some rc ∧
      rc ≠ "" ∧
      r = (SupplierMappingStatus.REJECTED, (rejectionReasonsGet rc).getD rc) ∧
      db2 = { db with
        mappings := db.mappings.map (fun x =>
          if x.id == m.id then applyReject now admin rc x else x),
        events := db.events ++
          [log_moderation_event db.next_event_id (applyReject now admin rc m)
            .REJECTED now admin (some rc)
            (payload.bind (fun p => p.comment_internal))],
        next_event_id := db.next_event_id + 1 } := by
  unfold reject_mapping at h
  cases hfind : db.mappings.find? (fun x => x.id == mid) with
  | none => rw [hfind] at h; exact absurd h (by simp)
  | some m =>
    rw [hfind] at h
    by_cases hst : m.status = SupplierMappingStatus.PENDING
    · simp only [hst, ne_eq, not_true_eq_false, if_false, ite_false] at h
      cases hrc : (match payload with
        | some p => some p.reason_code
        | none => reason) with
      | none => rw [hrc] at h; exact absurd h (by simp)
      | some rc =>
        rw [hrc] at h
        by_cases hne : rc = ""
        · simp [hne] at h
        · simp only [hne, if_false, ite_false] at h
          refine ⟨m, rc, rfl, hst, rfl, hne, ?_, ?_⟩
          · exact (Prod.mk.injEq _ _ _ _ ▸ (Except.ok.inj h)).2.symm
          · exact ((Prod.mk.injEq _ _ _ _ ▸ (Except.ok.inj h)).1).symm
    · simp [hst] at h

/-- Counterexample to C5 as stated: rejecting the pending mapping of dbW2
with the unknown code NO_SUCH_CODE answers that code as its own label, but
the single ledger event written carries no resolved label at all (`none`,
not the code). -/
theorem reject_unknown_code_event_label_cex :
    Except.map
        (fun x => (x.2.2, x.1.events.map (fun e => e.reject_reason_label)))
        (reject_mapping dbW2 6 "adm" 1
          (some { reason_code := "NO_SUCH_CODE", comment_internal := none })
          none)
      = .ok ("NO_SUCH_CODE", [(none : Option String)])
    ∧ (none : Option String) ≠ some "NO_SUCH_CODE" :=
  ⟨rfl, by decide⟩

/-- C5 (amended): rejecting a PENDING mapping with a reason code outside the
fixed table succeeds, the answered label is the code itself, and the single
REJECTED ledger event written carries the code but a null resolved label
(only codes in the table are resolved into the ledger). -/
theorem reject_unknown_code_passthrough
    (db : DB) (now : Nat) (admin : String) (mid : Nat) (code : String)
    (ci : Option String) (m : SupplierMapping)
    (hfind : db.mappings.find? (fun x => x.id == mid) = some m)
    (hst : m.status = .PENDING)
    (hunknown : rejectionReasonsGet code = none) (hne : code ≠ "") :
    ∃ db2 ev,
      reject_mapping db now admin mid
          (some { reason_code := code, comment_internal := ci }) none
        = .ok (db2, (SupplierMappingStatus.REJECTED, code)) ∧
      db2.events = db.events ++ [ev] ∧
      ev.decision = .REJECTED ∧
      ev.mapping_id = some m.id ∧
      ev.reject_reason_code = some code ∧
      ev.reject_reason_label = none := by
  refine ⟨{ db with
      mappings := db.mappings.map (fun x =>
        if x.id == m.id then applyReject now admin code x else x),
      events := db.events ++
        [log_moderation_event db.next_event_id (applyReject now admin code m)
          .REJECTED now admin (some code) ci],
      next_event_id := db.next_event_id + 1 },
    log_moderation_event db.next_event_id (applyReject now admin code m)
      .REJECTED now admin (some code) ci, ?_, rfl, rfl, rfl, rfl, ?_⟩
  · unfold reject_mapping
    rw [hfind]
    simp only [hst, ne_eq, not_true_eq_false, if_false, ite_false, hne,
      hunknown, Option.getD_none, Option.bind]
  · simp [log_moderation_event, hne, hunknown]

theorem reject_unknown_code_passthrough_witness :
    dbW2.mappings.find? (fun x => x.id == 1) = some mW2 ∧
    mW2.status = .PENDING ∧
    rejectionReasonsGet "NO_SUCH_CODE" = none ∧
    (∃ db2 ev,
      reject_mapping dbW2 6 "adm" 1
          (some { reason_code := "NO_SUCH_CODE", comment_internal := none })
          none
        = .ok (db2, (SupplierMappingStatus.REJECTED, "NO_SUCH_CODE")) ∧
      db2.events = dbW2.events ++ [ev] ∧
      ev.decision = .REJECTED ∧
      ev.mapping_id = some mW2.id ∧
      ev.reject_reason_code = some "NO_SUCH_CODE" ∧
      ev.reject_reason_label = none) :=
  ⟨rfl, rfl, rfl,
   reject_unknown_code_passthrough dbW2 6 "adm" 1 "NO_SUCH_CODE" none mW2
     rfl rfl rfl (by decide)⟩

/-- Inversion of a successful mapping proposal: group and supplier were
found, the group lies in the seller's scope, and the new store appends the
snapshotting PENDING mapping with the fresh id. -/
theorem create_mapping_ok_inv {db : DB} {now : Nat} {so sp : String}
    {gid sid : Nat} {db2 : DB} {mid : Nat}
    (h : create_mapping db now so sp gid sid = .ok (db2, mid)) :
    ∃ g s, db.groups.find? (fun x => x.id == gid) = some g ∧
      g.owner_id = so ∧ g.packet_id = sp ∧
      db.suppliers.find? (fun x => x.id == sid) = some s ∧
      mid = db.next_mapping_id ∧
      db2 = { db with mappings := db.mappings ++ [newMappingFor db now g s],
                      next_mapping_id := db.next_mapping_id + 1 } := by
  unfold create_mapping at h
  cases hg : db.groups.find? (fun x => x.id == gid) with
  | none => rw [hg] at h; exact absurd h (by simp)
  | some g =>
    rw [hg] at h
    by_cases hscope : g.owner_id ≠ so ∨ g.packet_id ≠ sp
    · simp [hscope] at h
    · push_neg at hscope
      simp only [hscope.1, hscope.2, ne_eq, not_true_eq_false, false_or,
        or_false, if_false, ite_false, not_false_eq_true] at h
      cases hs : db.suppliers.find? (fun x => x.id == sid) with
      | none => rw [hs] at h; exact absurd h (by simp)
      | some s =>
        rw [hs] at h
        refine ⟨g, s, rfl, hscope.1, hscope.2, rfl, ?_, ?_⟩
        · exact (Prod.mk.injEq _ _ _ _ ▸ (Except.ok.inj h)).2.symm
        · exact ((Prod.mk.injEq _ _ _ _ ▸ (Except.ok.inj h)).1).symm

/-- import_one only touches price items, groups and their counters. -/
theorem import_one_frame (db : DB) (now : Nat) (p : PriceItemImport) :
    (import_one db now p).mappings = db.mappings ∧
    (import_one db now p).events = db.events ∧
    (import_one db now p).suppliers = db.suppliers ∧
    (import_one db now p).next_mapping_id = db.next_mapping_id ∧
    (import_one db now p).next_event_id = db.next_event_id := by
  refine ⟨?_, ?_, ?_, ?_, ?_⟩ <;>
  · simp only [import_one]
    cases hfind : List.find? (groupKeyMatches p.ownerId p.packetId
      (normalize_inn p.inn).1 p.std_supplier) db.groups <;> simp [hfind]

/-- The whole import loop only touches price items, groups and counters. -/
theorem foldl_import_one_frame (items : List PriceItemImport) (db : DB)
    (now : Nat) :
    (items.foldl (fun d payload => import_one d now payload) db).mappings
        = db.mappings ∧
    (items.foldl (fun d payload => import_one d now payload) db).events
        = db.events ∧
    (items.foldl (fun d payload => import_one d now payload) db).suppliers
        = db.suppliers ∧
    (items.foldl (fun d payload => import_one d now payload) db).next_mapping_id
        = db.next_mapping_id ∧
    (items.foldl (fun d payload => import_one d now payload) db).next_event_id
        = db.next_event_id := by
  induction items generalizing db with
  | nil => exact ⟨rfl, rfl, rfl, rfl, rfl⟩
  | cons a t ih =>
    simp only [List.foldl_cons]
    obtain ⟨h1, h2, h3, h4, h5⟩ := ih (import_one db now a)
    obtain ⟨g1, g2, g3, g4, g5⟩ := import_one_frame db now a
    exact ⟨h1.trans g1, h2.trans g2, h3.trans g3, h4.trans g4, h5.trans g5⟩

/-- Canonical supplier used by the C8 store. -/
def supW : Supplier :=
  { id := 1, supplier := "Acme", inn := "7701234567", kpp := none,
    country := none, city := none, address := none, url := none,
    branch := none, created_at := 0 }

/-- Store whose only mapping references its only supplier. -/
def dbW3 : DB := { dbW1 with suppliers := [supW], next_supplier_id := 2 }

/-- C8: deleting a supplier referenced by some mapping fails — the delete
flush trips the NOT NULL constraint on canonical_supplier_id — and leaves
the store unchanged; a delete succeeds only when no mapping references the
supplier, and then removes exactly that supplier row. -/
theorem delete_supplier_requires_unreferenced :
    (∀ (db : DB) (sid : Nat),
      (∃ m ∈ db.mappings, m.canonical_supplier_id = sid) →
      (deleteRun db sid).1 = db ∧
        ∃ e, (deleteRun db sid).2 = .error e)
    ∧ (∀ (db : DB) (sid : Nat) (db2 : DB),
      delete_supplier db sid = .ok db2 →
      (∀ m ∈ db.mappings, m.canonical_supplier_id ≠ sid) ∧
      db2.suppliers = db.suppliers.filter (fun s => !(s.id == sid))) := by
  constructor
  · intro db sid h
    obtain ⟨m, hm, hmid⟩ := h
    unfold deleteRun delete_supplier
    cases hfind : db.suppliers.find? (fun s => s.id == sid) with
    | none => exact ⟨rfl, ApiError.NotFound, rfl⟩
    | some s =>
      have hany : db.mappings.any
          (fun m2 => m2.canonical_supplier_id == sid) = true := by
        rw [List.any_eq_true]
        exact ⟨m, hm, beq_iff_eq.mpr hmid⟩
      rw [if_pos hany]
      exact ⟨rfl, ApiError.ServerError, rfl⟩
  · intro db sid db2 h
    unfold delete_supplier at h
    cases hfind : db.suppliers.find? (fun s => s.id == sid) with
    | none => rw [hfind] at h; exact absurd h (by simp)
    | some s =>
      rw [hfind] at h
      by_cases hany : db.mappings.any
          (fun m2 => m2.canonical_supplier_id == sid) = true
      · rw [if_pos hany] at h
        exact absurd h (by simp)
      · rw [if_neg hany] at h
        have hdb2 := Except.ok.inj h
        constructor
        · intro m hm hmid
          apply hany
          rw [List.any_eq_true]
          exact ⟨m, hm, beq_iff_eq.mpr hmid⟩
        · rw [← hdb2]

/-- Store with one unreferenced supplier, for the success leg of C8. -/
def dbW5 : DB := { emptyDB with suppliers := [supW], next_supplier_id := 2 }

/-- Store after successfully deleting the unreferenced supplier of dbW5. -/
def dbW5del : DB :=
  match delete_supplier dbW5 1 with
  | .ok d => d
  | .error _ => emptyDB

theorem delete_supplier_requires_unreferenced_witness :
    ((deleteRun dbW3 1).1 = dbW3 ∧ ∃ e, (deleteRun dbW3 1).2 = .error e) ∧
    ((∀ m ∈ dbW5.mappings, m.canonical_supplier_id ≠ 1) ∧
      dbW5del.suppliers = dbW5.suppliers.filter (fun s => !(s.id == 1))) :=
  ⟨delete_supplier_requires_unreferenced.1 dbW3 1 ⟨mW1, by decide, rfl⟩,
   delete_supplier_requires_unreferenced.2 dbW5 1 dbW5del rfl⟩

/-- C9: a freshly proposed mapping snapshots the group's raw supplier text
and normalized INN, and import operations (the only mutators of groups)
leave the mappings table — hence those snapshot fields — untouched. -/
theorem mapping_snapshot_frame :
    (∀ (db : DB) (now : Nat) (so sp : String) (gid sid : Nat) (db2 : DB)
        (mid : Nat) (g : PriceSupplierGroup),
      db.groups.find? (fun x => x.id == gid) = some g →
      create_mapping db now so sp gid sid = .ok (db2, mid) →
      ∃ m, db2.mappings = db.mappings ++ [m] ∧
        m.std_supplier_raw = g.std_supplier_raw ∧ m.inn_norm = g.inn_norm)
    ∧ (∀ (db : DB) (now : Nat) (items : List PriceItemImport),
        ((import_price_items db now items).1).mappings = db.mappings) := by
  constructor
  · intro db now so sp gid sid db2 mid g hg h
    obtain ⟨g', s, hg', _, _, _, _, hdb2⟩ := create_mapping_ok_inv h
    rw [hg] at hg'
    cases hg'
    exact ⟨newMappingFor db now g s, by rw [hdb2], rfl, rfl⟩
  · intro db now items
    exact (foldl_import_one_frame items db now).1

/-- Group used by the C9 witness store. -/
def gW4 : PriceSupplierGroup :=
  { id := 1, owner_id := "A", packet_id := "P",
    inn_norm := some "7701234567", std_supplier_raw := "Acme raw",
    items_count := 1, inn_invalid := false, created_at := 0, updated_at := 0 }

/-- Store with one group and one supplier, ready for a mapping proposal. -/
def dbW4 : DB :=
  { emptyDB with groups := [gW4], suppliers := [supW], next_group_id := 2,
                 next_supplier_id := 2 }

/-- Row matching gW4's key, for the import leg of the C9 witness. -/
def rW4 : PriceItemImport :=
  { ownerId := "A", packetId := "P", inn := some "7701234567",
    std_supplier := "Acme raw", itemId := none }

/-- Store after proposing a mapping of gW4 onto supW. -/
def dbW4prop : DB :=
  match create_mapping dbW4 8 "A" "P" 1 1 with
  | .ok (d, _) => d
  | .error _ => emptyDB

theorem mapping_snapshot_frame_witness :
    dbW4.groups.find? (fun x => x.id == 1) = some gW4 ∧
    (∃ m, dbW4prop.mappings = dbW4.mappings ++ [m] ∧
      m.std_supplier_raw = gW4.std_supplier_raw ∧ m.inn_norm = gW4.inn_norm) ∧
    ((import_price_items dbW4prop 9 [rW4]).1).mappings = dbW4prop.mappings :=
  ⟨rfl,
   mapping_snapshot_frame.1 dbW4 8 "A" "P" 1 1 dbW4prop 1 gW4 rfl rfl,
   mapping_snapshot_frame.2 dbW4prop 9 [rW4]⟩

/-- The key predicate holds exactly when all four key fields agree; `none`
normalized INNs compare equal to each other (IS NULL semantics). -/
theorem groupKeyMatches_iff {o p : String} {k : Option String} {s : String}
    {g : PriceSupplierGroup} :
    groupKeyMatches o p k s g = true ↔
      g.owner_id = o ∧ g.packet_id = p ∧ g.inn_norm = k ∧
        g.std_supplier_raw = s := by
  simp [groupKeyMatches, and_assoc]

/-- Mapping a function that fixes every element of a list is the identity. -/
theorem map_id_of_eq {α : Type} (l : List α) (f : α → α)
    (h : ∀ x ∈ l, f x = x) : l.map f = l := by
  induction l with
  | nil => rfl
  | cons a t ih =>
    simp only [List.map_cons, h a (by simp)]
    rw [ih (fun x hx => h x (by simp [hx]))]

/-- The group row created by the import loop for a row with no matching
group: fresh id, the row's key, count one. -/
def newGroupFor (db : DB) (now : Nat) (p : PriceItemImport) :
    PriceSupplierGroup :=
  { id := db.next_group_id, owner_id := p.ownerId, packet_id := p.packetId,
    inn_norm := (normalize_inn p.inn).1, std_supplier_raw := p.std_supplier,
    items_count := 1, inn_invalid := (normalize_inn p.inn).2,
    created_at := now, updated_at := now }

/-- Importing a row whose key matches no existing group appends exactly one
new group with that key and count one. -/
theorem import_one_creates {db : DB} {now : Nat} {p : PriceItemImport}
    (hnone : ∀ g ∈ db.groups,
      groupKeyMatches p.ownerId p.packetId (normalize_inn p.inn).1
        p.std_supplier g = false) :
    (import_one db now p).groups = db.groups ++ [newGroupFor db now p] ∧
    (import_one db now p).next_group_id = db.next_group_id + 1 := by
  have hfind : List.find? (groupKeyMatches p.ownerId p.packetId
      (normalize_inn p.inn).1 p.std_supplier) db.groups = none := by
    refine List.find?_eq_none.mpr ?_
    intro g hg
    simp [hnone g hg]
  constructor <;> simp [import_one, hfind, newGroupFor]

/-- Importing a row whose key matches exactly the last listed group updates
that group in place: count bumped, invalid flag refreshed, timestamp
touched. -/
theorem import_one_bumps {db : DB} {now : Nat} {p : PriceItemImport}
    {base : List PriceSupplierGroup} {g : PriceSupplierGroup}
    (hsplit : db.groups = base ++ [g])
    (hbase : ∀ g' ∈ base,
      groupKeyMatches p.ownerId p.packetId (normalize_inn p.inn).1
        p.std_supplier g' = false)
    (hbaseid : ∀ g' ∈ base, g'.id ≠ g.id)
    (hg : groupKeyMatches p.ownerId p.packetId (normalize_inn p.inn).1
        p.std_supplier g = true) :
    (import_one db now p).groups = base ++
      [{ g with items_count := g.items_count + 1,
                inn_invalid := (normalize_inn p.inn).2, updated_at := now }] ∧
    (import_one db now p).next_group_id = db.next_group_id := by
  have hfind : List.find? (groupKeyMatches p.ownerId p.packetId
      (normalize_inn p.inn).1 p.std_supplier) db.groups = some g := by
    rw [hsplit, List.find?_append]
    have h1 : List.find? (groupKeyMatches p.ownerId p.packetId
        (normalize_inn p.inn).1 p.std_supplier) base = none := by
      refine List.find?_eq_none.mpr ?_
      intro g' hg'
      simp [hbase g' hg']
    rw [h1]
    simp [List.find?_cons, hg]
  constructor
  · simp only [import_one, hfind]
    rw [hsplit, List.map_append]
    congr 1
    · refine map_id_of_eq _ _ ?_
      intro x hx
      simp [hbaseid x hx]
    · simp
  · simp only [import_one, hfind]

/-- Running further same-key imports against a store whose only matching
group is the last listed one keeps that single group, bumping its count once
per row. -/
theorem import_seq_bumps (o p : String) (k : Option String) (s : String)
    (ops : List (Nat × PriceItemImport))
    (hops : ∀ op ∈ ops, op.2.ownerId = o ∧ op.2.packetId = p ∧
      (normalize_inn op.2.inn).1 = k ∧ op.2.std_supplier = s) :
    ∀ (db : DB) (base : List PriceSupplierGroup) (g : PriceSupplierGroup),
      db.groups = base ++ [g] →
      (∀ g' ∈ base, groupKeyMatches o p k s g' = false) →
      (∀ g' ∈ base, g'.id ≠ g.id) →
      groupKeyMatches o p k s g = true →
      ∃ g2, (import_seq db ops).groups = base ++ [g2] ∧
        groupKeyMatches o p k s g2 = true ∧ g2.id = g.id ∧
        g2.items_count = g.items_count + ops.length := by
  induction ops with
  | nil =>
    intro db base g hsplit hbase hbaseid hg
    exact ⟨g, hsplit, hg, rfl, rfl⟩
  | cons op rest ih =>
    intro db base g hsplit hbase hbaseid hg
    obtain ⟨ho, hp, hk, hs⟩ := hops op (by simp)
    have hbase' : ∀ g' ∈ base,
        groupKeyMatches op.2.ownerId op.2.packetId (normalize_inn op.2.inn).1
          op.2.std_supplier g' = false := by
      intro g' hg'
      rw [ho, hp, hk, hs]
      exact hbase g' hg'
    have hg' : groupKeyMatches op.2.ownerId op.2.packetId
        (normalize_inn op.2.inn).1 op.2.std_supplier g = true := by
      rw [ho, hp, hk, hs]; exact hg
    obtain ⟨hgroups, _⟩ := import_one_bumps hsplit hbase' hbaseid hg'
    have hmatch2 : groupKeyMatches o p k s
        { g with items_count := g.items_count + 1,
                 inn_invalid := (normalize_inn op.2.inn).2,
                 updated_at := op.1 } = true := by
      rw [groupKeyMatches_iff] at hg ⊢
      exact hg
    obtain ⟨g2, hg2, hm2, hid2, hc2⟩ := ih
      (fun o2 ho2 => hops o2 (by simp [ho2]))
      (import_one db op.1 op.2) base _ hgroups hbase
      (fun g' hg'' => hbaseid g' hg'') hmatch2
    refine ⟨g2, hg2, hm2, hid2, ?_⟩
    rw [hc2]
    simp
    omega

/-- Importing a nonempty run of rows sharing one fresh key appends exactly
one group carrying that key, counting the rows; no other group matches the
key afterwards. -/
theorem import_seq_fresh_key (o p : String) (k : Option String) (s : String)
    (ops : List (Nat × PriceItemImport)) (db : DB)
    (hops : ∀ op ∈ ops, op.2.ownerId = o ∧ op.2.packetId = p ∧
      (normalize_inn op.2.inn).1 = k ∧ op.2.std_supplier = s)
    (hids : ∀ g ∈ db.groups, g.id < db.next_group_id)
    (hnone : ∀ g ∈ db.groups, groupKeyMatches o p k s g = false)
    (hne : ops ≠ []) :
    ∃ g2, (import_seq db ops).groups = db.groups ++ [g2] ∧
      groupKeyMatches o p k s g2 = true ∧
      g2.items_count = ops.length ∧
      (import_seq db ops).groups.filter (groupKeyMatches o p k s) = [g2] := by
  cases ops with
  | nil => exact absurd rfl hne
  | cons op rest =>
    obtain ⟨ho, hp, hk, hs⟩ := hops op (by simp)
    have hnone' : ∀ g ∈ db.groups,
        groupKeyMatches op.2.ownerId op.2.packetId (normalize_inn op.2.inn).1
          op.2.std_supplier g = false := by
      intro g hg
      rw [ho, hp, hk, hs]
      exact hnone g hg
    obtain ⟨hgroups, _⟩ := import_one_creates hnone'
    have hmatch : groupKeyMatches o p k s
        (newGroupFor db op.1 op.2) = true := by
      rw [groupKeyMatches_iff]
      exact ⟨ho, hp, hk, hs⟩
    have hbaseid : ∀ g' ∈ db.groups, g'.id ≠ (newGroupFor db op.1 op.2).id := by
      intro g' hg'
      have := hids g' hg'
      simp only [newGroupFor]
      omega
    obtain ⟨g2, hg2, hm2, hid2, hc2⟩ := import_seq_bumps o p k s rest
      (fun o2 ho2 => hops o2 (by simp [ho2]))
      (import_one db op.1 op.2) db.groups _ hgroups hnone hbaseid hmatch
    have hseq : import_seq db (op :: rest)
        = import_seq (import_one db op.1 op.2) rest := rfl
    refine ⟨g2, by rw [hseq, hg2], hm2, ?_, ?_⟩
    · rw [hc2]
      simp only [newGroupFor, List.length_cons]
      omega
    · rw [hseq, hg2, List.filter_append]
      have h1 : db.groups.filter (groupKeyMatches o p k s) = [] :=
        List.filter_eq_nil_iff.mpr (fun g hg => by simp [hnone g hg])
      rw [h1]
      simp [hm2]

/-- One import call is the run of its rows under one clock reading. -/
theorem import_price_items_eq_seq (db : DB) (now : Nat)
    (items : List PriceItemImport) :
    (import_price_items db now items).1
      = import_seq db (items.map (fun r => (now, r))) := by
  simp [import_price_items, import_seq, List.foldl_map]

/-- C6: importing N ≥ 1 rows sharing one (owner, packet, INN, supplier-text)
key whose INN normalizes to a non-null digit string, into a store with no
group for that key, produces exactly one group for the key and its
items_count is N. -/
theorem import_identical_rows_one_group (db : DB) (now : Nat)
    (o p inn s : String) (N : Nat) (hN : 1 ≤ N)
    (hnonnull : (normalize_inn (some inn)).1 ≠ none)
    (hids : ∀ g ∈ db.groups, g.id < db.next_group_id)
    (hnone : ∀ g ∈ db.groups,
      groupKeyMatches o p (normalize_inn (some inn)).1 s g = false) :
    ∃ g2,
      ((import_price_items db now (List.replicate N
          { ownerId := o, packetId := p, inn := some inn, std_supplier := s,
            itemId := none })).1).groups.filter
        (groupKeyMatches o p (normalize_inn (some inn)).1 s) = [g2] ∧
      g2.items_count = N := by
  rw [import_price_items_eq_seq]
  have hops : ∀ op ∈ (List.replicate N
      ({ ownerId := o, packetId := p, inn := some inn, std_supplier := s,
         itemId := none } : PriceItemImport)).map (fun r => (now, r)),
      op.2.ownerId = o ∧ op.2.packetId = p ∧
      (normalize_inn op.2.inn).1 = (normalize_inn (some inn)).1 ∧
      op.2.std_supplier = s := by
    intro op hop
    simp only [List.mem_map, List.mem_replicate] at hop
    obtain ⟨r, ⟨_, hr⟩, hop⟩ := hop
    subst hr
    subst hop
    exact ⟨rfl, rfl, rfl, rfl⟩
  have hne : (List.replicate N
      ({ ownerId := o, packetId := p, inn := some inn, std_supplier := s,
         itemId := none } : PriceItemImport)).map (fun r => (now, r)) ≠ [] := by
    simp only [ne_eq, List.map_eq_nil_iff, ← List.length_eq_zero]
    simp
    omega
  obtain ⟨g2, _, _, hc, hf⟩ := import_seq_fresh_key o p
    (normalize_inn (some inn)).1 s _ db hops hids hnone hne
  refine ⟨g2, hf, ?_⟩
  rw [hc]
  simp

/-- C4: two rows with the same owner, packet and raw supplier text whose
INNs both normalize to null end up in one group: the second import finds the
group the first created, because null is a key value equal to itself. -/
theorem import_null_inn_groups_together (db : DB) (now1 now2 : Nat)
    (r1 r2 : PriceItemImport)
    (ho : r2.ownerId = r1.ownerId) (hp : r2.packetId = r1.packetId)
    (hs : r2.std_supplier = r1.std_supplier)
    (h1 : (normalize_inn r1.inn).1 = none)
    (h2 : (normalize_inn r2.inn).1 = none)
    (hids : ∀ g ∈ db.groups, g.id < db.next_group_id)
    (hnone : ∀ g ∈ db.groups,
      groupKeyMatches r1.ownerId r1.packetId none r1.std_supplier g = false) :
    ∃ g2,
      ((import_price_items (import_price_items db now1 [r1]).1 now2
          [r2]).1).groups = db.groups ++ [g2] ∧
      groupKeyMatches r1.ownerId r1.packetId none r1.std_supplier g2 = true ∧
      g2.items_count = 2 := by
  rw [import_price_items_eq_seq, import_price_items_eq_seq]
  have hcomp : import_seq (import_seq db [(now1, r1)]) [(now2, r2)]
      = import_seq db [(now1, r1), (now2, r2)] := rfl
  rw [show ([r1].map (fun r => (now1, r))) = [(now1, r1)] from rfl,
      show ([r2].map (fun r => (now2, r))) = [(now2, r2)] from rfl, hcomp]
  have hops : ∀ op ∈ [(now1, r1), (now2, r2)],
      op.2.ownerId = r1.ownerId ∧ op.2.packetId = r1.packetId ∧
      (normalize_inn op.2.inn).1 = none ∧
      op.2.std_supplier = r1.std_supplier := by
    intro op hop
    simp only [List.mem_cons, List.mem_singleton, List.not_mem_nil,
      or_false] at hop
    rcases hop with hop | hop <;> subst hop
    · exact ⟨rfl, rfl, h1, rfl⟩
    · exact ⟨ho, hp, h2, hs⟩
  obtain ⟨g2, hg2, hm2, hc2, _⟩ := import_seq_fresh_key r1.ownerId r1.packetId
    none r1.std_supplier [(now1, r1), (now2, r2)] db hops hids hnone
    (by simp)
  exact ⟨g2, hg2, hm2, hc2⟩

theorem import_identical_rows_one_group_witness :
    1 ≤ 3 ∧ (normalize_inn (some "7701234567")).1 ≠ none ∧
    (∃ g2,
      ((import_price_items emptyDB 0 (List.replicate 3
          { ownerId := "A", packetId := "P", inn := some "7701234567",
            std_supplier := "Acme", itemId := none })).1).groups.filter
        (groupKeyMatches "A" "P" (normalize_inn (some "7701234567")).1 "Acme")
        = [g2] ∧
      g2.items_count = 3) :=
  ⟨by decide, by decide,
   import_identical_rows_one_group emptyDB 0 "A" "P" "7701234567" "Acme" 3
     (by decide) (by decide) (by intro g hg; cases hg) (by intro g hg; cases hg)⟩

/-- Row with an unnormalizable INN, for the C4 witness. -/
def rN1 : PriceItemImport :=
  { ownerId := "A", packetId := "P", inn := some "abc",
    std_supplier := "NoInn Co", itemId := none }

/-- Row with a null INN and the same remaining key, for the C4 witness. -/
def rN2 : PriceItemImport :=
  { ownerId := "A", packetId := "P", inn := none,
    std_supplier := "NoInn Co", itemId := none }

theorem import_null_inn_groups_together_witness :
    (normalize_inn rN1.inn).1 = none ∧ (normalize_inn rN2.inn).1 = none ∧
    (∃ g2,
      ((import_price_items (import_price_items emptyDB 1 [rN1]).1 2
          [rN2]).1).groups = emptyDB.groups ++ [g2] ∧
      groupKeyMatches rN1.ownerId rN1.packetId none rN1.std_supplier g2
        = true ∧
      g2.items_count = 2) :=
  ⟨by decide, rfl,
   import_null_inn_groups_together emptyDB 1 2 rN1 rN2 rfl rfl rfl
     (by decide) rfl (by intro g hg; cases hg) (by intro g hg; cases hg)⟩

/-- The latest-picker only answers elements of its list. -/
theorem pickLatestBy_mem {α : Type} (key : α → Nat) (l : List α) (m : α)
    (h : pickLatestBy key l = some m) : m ∈ l := by
  induction l generalizing m with
  | nil => cases h
  | cons x rest ih =>
    cases hr : pickLatestBy key rest with
    | none =>
      simp only [pickLatestBy, hr] at h
      cases h
      simp
    | some b =>
      simp only [pickLatestBy, hr] at h
      by_cases hgt : key b > key x
      · rw [if_pos hgt] at h
        cases h
        exact List.mem_cons_of_mem _ (ih _ hr)
      · rw [if_neg hgt] at h
        cases h
        simp

/-- The latest-picker answers an element whose key dominates every member. -/
theorem pickLatestBy_ge {α : Type} (key : α → Nat) (l : List α) (a : α)
    (ha : a ∈ l) : ∃ m, pickLatestBy key l = some m ∧ key a ≤ key m := by
  induction l with
  | nil => cases ha
  | cons x rest ih =>
    rcases List.mem_cons.mp ha with h | h
    · subst h
      cases hr : pickLatestBy key rest with
      | none => exact ⟨a, by simp [pickLatestBy, hr], le_refl _⟩
      | some b =>
        by_cases hgt : key b > key a
        · exact ⟨b, by simp [pickLatestBy, hr, hgt], le_of_lt hgt⟩
        · exact ⟨a, by simp [pickLatestBy, hr, hgt], le_refl _⟩
    · obtain ⟨m, hm, hle⟩ := ih h
      cases hr : pickLatestBy key rest with
      | none => rw [hr] at hm; cases hm
      | some b =>
        have hbm : b = m := by
          rw [hr] at hm
          exact Option.some.inj hm
        subst hbm
        by_cases hgt : key b > key x
        · exact ⟨b, by simp [pickLatestBy, hr, hgt], hle⟩
        · refine ⟨x, by simp [pickLatestBy, hr, hgt], ?_⟩
          omega

/-- With a strictly dominant element the latest-picker answers exactly it. -/
theorem pickLatestBy_strict_max {α : Type} (key : α → Nat) (l : List α)
    (m : α) (hm : m ∈ l)
    (hmax : ∀ a ∈ l, a ≠ m → key a < key m) :
    pickLatestBy key l = some m := by
  obtain ⟨b, hb, hle⟩ := pickLatestBy_ge key l m hm
  have hbmem := pickLatestBy_mem key l b hb
  by_cases hbm : b = m
  · subst hbm; exact hb
  · have := hmax b hbmem hbm
    omega

/-- C3: the resolver reports the status and canonical supplier of the
group's strictly latest-created mapping, and UNMAPPED with no canonical
supplier when the group has none — regardless of which mapping carries the
latest decision. -/
theorem resolver_follows_latest_mapping (db : DB) (g : PriceSupplierGroup) :
    ((∀ m ∈ db.mappings, m.group_id ≠ g.id) →
      (resolve_group_status db g).status = "UNMAPPED" ∧
      (resolve_group_status db g).canonical_supplier = none ∧
      (resolve_group_status db g).canonical_supplier_id = none)
    ∧ (∀ m ∈ db.mappings, m.group_id = g.id →
        (∀ m2 ∈ db.mappings, m2.group_id = g.id → m2 ≠ m →
          m2.created_at < m.created_at) →
        (resolve_group_status db g).status = statusStr m.status ∧
        (resolve_group_status db g).canonical_supplier_id
          = some m.canonical_supplier_id ∧
        (resolve_group_status db g).canonical_supplier
          = (db.suppliers.find?
              (fun s => s.id == m.canonical_supplier_id)).map
              (fun s => s.supplier)) := by
  constructor
  · intro h
    have hl : db.mappings.filter (fun m => m.group_id == g.id) = [] :=
      List.filter_eq_nil_iff.mpr (fun m hm => by simp [h m hm])
    have hnone : latest_mapping_for_group db g.id = none := by
      simp [latest_mapping_for_group, hl, pickLatestBy]
    simp [resolve_group_status, hnone]
  · intro m hm hgid hmax
    have hmem : m ∈ db.mappings.filter (fun x => x.group_id == g.id) := by
      simp [List.mem_filter, hm, hgid]
    have hmax' : ∀ a ∈ db.mappings.filter (fun x => x.group_id == g.id),
        a ≠ m → a.created_at < m.created_at := by
      intro a ha hne
      rw [List.mem_filter] at ha
      exact hmax a ha.1 (by simpa using ha.2) hne
    have hlat : latest_mapping_for_group db g.id = some m :=
      pickLatestBy_strict_max _ _ m hmem hmax'
    simp only [resolve_group_status, hlat]
    split
    · split <;> exact ⟨rfl, rfl, rfl⟩
    · exact ⟨rfl, rfl, rfl⟩

/-- Second supplier, target of the later mapping in the C3 witness. -/
def supX : Supplier :=
  { supW with id := 2, supplier := "Beta", inn := "7807654321" }

/-- Earlier, REJECTED mapping of group 1 onto supplier 1. -/
def mR : SupplierMapping :=
  { id := 1, group_id := 1, canonical_supplier_id := 1, owner_id := "A",
    packet_id := "P", status := .REJECTED, created_at := 1, updated_at := 2,
    approved_at := none, approved_by := none, rejected_at := some 2,
    rejected_by := some "adm", reject_reason := some "WRONG_INN",
    std_supplier_raw := "Acme raw", inn_norm := some "7701234567" }

/-- Later-created, APPROVED mapping of group 1 onto supplier 2. -/
def mA : SupplierMapping :=
  { mR with
    id := 2, canonical_supplier_id := 2, status := .APPROVED,
    created_at := 5, updated_at := 6, approved_at := some 6,
    approved_by := some "adm", rejected_at := none, rejected_by := none,
    reject_reason := none }

/-- Store with one group, two suppliers, and the REJECTED-then-APPROVED
mapping history of the spec's resolver scenario. -/
def dbC3 : DB :=
  { emptyDB with
    groups := [gW4], suppliers := [supW, supX],
    mappings := [mR, mA], next_group_id := 2, next_supplier_id := 3,
    next_mapping_id := 3 }

theorem resolver_follows_latest_mapping_witness :
    ((resolve_group_status dbW4 gW4).status = "UNMAPPED" ∧
     (resolve_group_status dbW4 gW4).canonical_supplier = none ∧
     (resolve_group_status dbW4 gW4).canonical_supplier_id = none) ∧
    ((resolve_group_status dbC3 gW4).status = statusStr mA.status ∧
     (resolve_group_status dbC3 gW4).canonical_supplier_id
       = some mA.canonical_supplier_id ∧
     (resolve_group_status dbC3 gW4).canonical_supplier
       = (dbC3.suppliers.find?
           (fun s => s.id == mA.canonical_supplier_id)).map
           (fun s => s.supplier)) :=
  ⟨(resolver_follows_latest_mapping dbW4 gW4).1 (by decide),
   (resolver_follows_latest_mapping dbC3 gW4).2 mA (by decide) rfl
     (by decide)⟩

/-- Ledger events naming a given mapping id. -/
def eventsFor (db : DB) (i : Nat) : List ModerationEvent :=
  db.events.filter (fun e => e.mapping_id == some i)

/-- Does a ledger decision agree with a terminal mapping status? -/
def decisionMatches : SupplierMappingStatus → ModerationDecision → Bool
  | .APPROVED, .APPROVED => true
  | .REJECTED, .REJECTED => true
  | _, _ => false

/-- Internal invariant of every reachable store: counters bound ids, mapping
and group ids are unique, ledger events reference allocated mapping ids,
each mapping's ledger trace matches its status exactly, and each group's
invalid flag agrees with its normalized INN. -/
structure Inv (db : DB) : Prop where
  map_id_lt : ∀ m ∈ db.mappings, m.id < db.next_mapping_id
  map_id_nodup : (db.mappings.map (fun m => m.id)).Nodup
  ev_ref_lt : ∀ e ∈ db.events, ∀ i, e.mapping_id = some i →
    i < db.next_mapping_id
  audit_pending : ∀ m ∈ db.mappings, m.status = .PENDING →
    eventsFor db m.id = []
  audit_terminal : ∀ m ∈ db.mappings, m.status ≠ .PENDING →
    ∃ e, eventsFor db m.id = [e] ∧ decisionMatches m.status e.decision = true
  grp_id_lt : ∀ g ∈ db.groups, g.id < db.next_group_id
  grp_id_nodup : (db.groups.map (fun g => g.id)).Nodup
  grp_flag : ∀ g ∈ db.groups, g.inn_invalid = innFlagOf g.inn_norm

/-- Stores reachable from the fresh store through the embedded endpoints:
imports, supplier-directory writes, mapping proposals, approvals and
rejections (failed calls leave the store unchanged, so only successful ones
step). -/
inductive Reach : DB → Prop where
  | init : Reach emptyDB
  | imp (db : DB) (now : Nat) (items : List PriceItemImport) :
      Reach db → Reach (import_price_items db now items).1
  | newSupplier (db : DB) (now : Nat) (payload : SupplierCreate) (db2 : DB)
      (sid : Nat) : Reach db →
      create_supplier db now payload = .ok (db2, sid) → Reach db2
  | dropSupplier (db : DB) (sid : Nat) (db2 : DB) : Reach db →
      delete_supplier db sid = .ok db2 → Reach db2
  | propose (db : DB) (now : Nat) (o p : String) (gid sid : Nat) (db2 : DB)
      (mid : Nat) : Reach db →
      create_mapping db now o p gid sid = .ok (db2, mid) → Reach db2
  | approveStep (db : DB) (now : Nat) (admin : String) (mid : Nat) (db2 : DB)
      (r : SupplierMappingStatus) : Reach db →
      approve_mapping db now admin mid = .ok (db2, r) → Reach db2
  | rejectStep (db : DB) (now : Nat) (admin : String) (mid : Nat)
      (payload : Option RejectRequest) (reason : Option String) (db2 : DB)
      (r : SupplierMappingStatus × String) : Reach db →
      reject_mapping db now admin mid payload reason = .ok (db2, r) →
      Reach db2

/-- Pointwise-equal functions map lists equally. -/
theorem map_congr_mem {α β : Type} (l : List α) (f g : α → β)
    (h : ∀ x ∈ l, f x = g x) : l.map f = l.map g := by
  induction l with
  | nil => rfl
  | cons a t ih =>
    simp only [List.map_cons, h a (by simp)]
    rw [ih (fun x hx => h x (by simp [hx]))]

/-- The invariant only reads mappings, events, groups and their counters, so
it transfers along operations that fix those. -/
theorem inv_frame {db db2 : DB}
    (hm : db2.mappings = db.mappings) (he : db2.events = db.events)
    (hg : db2.groups = db.groups)
    (hnm : db2.next_mapping_id = db.next_mapping_id)
    (hne : db2.next_event_id = db.next_event_id)
    (hng : db2.next_group_id = db.next_group_id)
    (h : Inv db) : Inv db2 := by
  have hevFor : ∀ i, eventsFor db2 i = eventsFor db i := by
    intro i
    simp [eventsFor, he]
  refine ⟨?_, ?_, ?_, ?_, ?_, ?_, ?_, ?_⟩
  · intro m hm2
    rw [hm] at hm2
    rw [hnm]
    exact h.map_id_lt m hm2
  · rw [hm]
    exact h.map_id_nodup
  · intro e he2 i hei
    rw [he] at he2
    rw [hnm]
    exact h.ev_ref_lt e he2 i hei
  · intro m hm2 hst
    rw [hm] at hm2
    rw [hevFor]
    exact h.audit_pending m hm2 hst
  · intro m hm2 hst
    rw [hm] at hm2
    rw [hevFor]
    exact h.audit_terminal m hm2 hst
  · intro g hg2
    rw [hg] at hg2
    rw [hng]
    exact h.grp_id_lt g hg2
  · rw [hg]
    exact h.grp_id_nodup
  · intro g hg2
    rw [hg] at hg2
    exact h.grp_flag g hg2

/-- A successful supplier creation only appends to the supplier table. -/
theorem create_supplier_ok_inv {db : DB} {now : Nat}
    {payload : SupplierCreate} {db2 : DB} {sid : Nat}
    (h : create_supplier db now payload = .ok (db2, sid)) :
    db2.mappings = db.mappings ∧ db2.events = db.events ∧
    db2.groups = db.groups ∧ db2.next_mapping_id = db.next_mapping_id ∧
    db2.next_event_id = db.next_event_id ∧
    db2.next_group_id = db.next_group_id := by
  simp only [create_supplier] at h
  split at h
  · have hdb := (Prod.mk.injEq _ _ _ _ ▸ (Except.ok.inj h)).1
    rw [← hdb]
    exact ⟨rfl, rfl, rfl, rfl, rfl, rfl⟩
  · exact absurd h (by simp)

/-- A successful supplier deletion only shrinks the supplier table. -/
theorem delete_supplier_ok_inv {db : DB} {sid : Nat} {db2 : DB}
    (h : delete_supplier db sid = .ok db2) :
    db2.mappings = db.mappings ∧ db2.events = db.events ∧
    db2.groups = db.groups ∧ db2.next_mapping_id = db.next_mapping_id ∧
    db2.next_event_id = db.next_event_id ∧
    db2.next_group_id = db.next_group_id := by
  unfold delete_supplier at h
  cases hfind : db.suppliers.find? (fun s => s.id == sid) with
  | none => rw [hfind] at h; exact absurd h (by simp)
  | some s =>
    rw [hfind] at h
    by_cases hany : db.mappings.any
        (fun m2 => m2.canonical_supplier_id == sid) = true
    · rw [if_pos hany] at h
      exact absurd h (by simp)
    · rw [if_neg hany] at h
      have hdb := Except.ok.inj h
      rw [← hdb]
      exact ⟨rfl, rfl, rfl, rfl, rfl, rfl⟩

/-- Core preservation argument shared by approve and reject: updating the
one PENDING mapping with a found id to a terminal status while appending one
matching ledger event keeps the invariant. -/
theorem inv_decide_step {db : DB} {m : SupplierMapping}
    {upd : SupplierMapping → SupplierMapping} {ev : ModerationEvent}
    (st : SupplierMappingStatus)
    (h : Inv db) (hmem : m ∈ db.mappings) (hst : m.status = .PENDING)
    (hupd_id : ∀ x, (upd x).id = x.id)
    (hupd_st : ∀ x, (upd x).status = st)
    (hstne : st ≠ SupplierMappingStatus.PENDING)
    (hev_id : ev.mapping_id = some m.id)
    (hev_dec : decisionMatches st ev.decision = true) :
    Inv { db with
      mappings := db.mappings.map (fun x =>
        if x.id == m.id then upd x else x),
      events := db.events ++ [ev],
      next_event_id := db.next_event_id + 1 } := by
  have hxid : ∀ x, (if x.id == m.id then upd x else x).id = x.id := by
    intro x
    by_cases hc : x.id == m.id <;> simp [hc, hupd_id]
  have heq_of_id : ∀ x ∈ db.mappings, x.id = m.id → x = m := by
    intro x hx hxm
    exact List.inj_on_of_nodup_map h.map_id_nodup hx hmem hxm
  have hevFor : ∀ i, eventsFor { db with
      mappings := db.mappings.map (fun x =>
        if x.id == m.id then upd x else x),
      events := db.events ++ [ev],
      next_event_id := db.next_event_id + 1 } i
      = eventsFor db i ++ List.filter (fun e => e.mapping_id == some i) [ev] := by
    intro i
    simp [eventsFor, List.filter_append]
  have hevNe : ∀ i, i ≠ m.id →
      List.filter (fun e => e.mapping_id == some i) [ev] = [] := by
    intro i hi
    simp [List.filter_cons, hev_id, hi, Ne.symm hi]
  have hevEq : List.filter (fun e => e.mapping_id == some m.id) [ev] = [ev] := by
    simp [List.filter_cons, hev_id]
  refine ⟨?_, ?_, ?_, ?_, ?_, ?_, ?_, ?_⟩
  · intro m2 hm2
    obtain ⟨x, hx, rfl⟩ := List.mem_map.mp hm2
    rw [hxid x]
    exact h.map_id_lt x hx
  · rw [show ({ db with
      mappings := db.mappings.map (fun x =>
        if x.id == m.id then upd x else x),
      events := db.events ++ [ev],
      next_event_id := db.next_event_id + 1 } : DB).mappings
      = db.mappings.map (fun x => if x.id == m.id then upd x else x) from rfl,
      List.map_map]
    have heq : (db.mappings.map ((fun x => x.id) ∘
        (fun x => if x.id == m.id then upd x else x)))
        = db.mappings.map (fun x => x.id) :=
      map_congr_mem _ _ _ (fun x _ => hxid x)
    rw [heq]
    exact h.map_id_nodup
  · intro e he i hei
    rcases List.mem_append.mp he with h1 | h1
    · exact h.ev_ref_lt e h1 i hei
    · have : e = ev := by simpa using h1
      subst this
      rw [hev_id] at hei
      have : i = m.id := (Option.some.inj hei).symm
      subst this
      exact h.map_id_lt m hmem
  · intro m2 hm2 hst2
    obtain ⟨x, hx, rfl⟩ := List.mem_map.mp hm2
    by_cases hc : x.id == m.id
    · rw [if_pos hc] at hst2
      rw [hupd_st x] at hst2
      exact absurd hst2 hstne
    · rw [if_neg hc] at hst2 ⊢
      rw [hevFor]
      have hxne : x.id ≠ m.id := by
        intro hxe
        exact hc (beq_iff_eq.mpr hxe)
      rw [hevNe x.id hxne, List.append_nil]
      exact h.audit_pending x hx hst2
  · intro m2 hm2 hst2
    obtain ⟨x, hx, rfl⟩ := List.mem_map.mp hm2
    by_cases hc : x.id == m.id
    · have hxm : x = m := heq_of_id x hx (beq_iff_eq.mp hc)
      subst hxm
      rw [if_pos hc] at hst2 ⊢
      rw [hevFor, hupd_id x, hevEq]
      have hnil : eventsFor db x.id = [] := h.audit_pending x hx hst
      rw [hnil, List.nil_append]
      refine ⟨ev, rfl, ?_⟩
      rw [hupd_st x]
      exact hev_dec
    · rw [if_neg hc] at hst2 ⊢
      rw [hevFor]
      have hxne : x.id ≠ m.id := by
        intro hxe
        exact hc (beq_iff_eq.mpr hxe)
      rw [hevNe x.id hxne, List.append_nil]
      exact h.audit_terminal x hx hst2
  · intro g hg
    exact h.grp_id_lt g hg
  · exact h.grp_id_nodup
  · intro g hg
    exact h.grp_flag g hg

/-- A successful mapping proposal preserves the invariant: the appended
mapping has a fresh id, starts PENDING, and no ledger event can reference
its id yet. -/
theorem inv_propose {db : DB} {now : Nat} {o p : String} {gid sid : Nat}
    {db2 : DB} {mid : Nat}
    (hok : create_mapping db now o p gid sid = .ok (db2, mid))
    (h : Inv db) : Inv db2 := by
  obtain ⟨g, s, _, _, _, _, _, hdb2⟩ := create_mapping_ok_inv hok
  subst hdb2
  have hevFor : ∀ i, eventsFor { db with
      mappings := db.mappings ++ [newMappingFor db now g s],
      next_mapping_id := db.next_mapping_id + 1 } i = eventsFor db i := by
    intro i
    simp [eventsFor]
  refine ⟨?_, ?_, ?_, ?_, ?_, ?_, ?_, ?_⟩
  · intro m2 hm2
    show m2.id < db.next_mapping_id + 1
    rcases List.mem_append.mp hm2 with h1 | h1
    · have := h.map_id_lt m2 h1
      omega
    · have : m2 = newMappingFor db now g s := by simpa using h1
      subst this
      simp [newMappingFor]
  · rw [show ({ db with
      mappings := db.mappings ++ [newMappingFor db now g s],
      next_mapping_id := db.next_mapping_id + 1 } : DB).mappings
      = db.mappings ++ [newMappingFor db now g s] from rfl,
      List.map_append]
    refine List.nodup_append.mpr ⟨h.map_id_nodup, by simp, ?_⟩
    intro a ha hb
    simp only [List.map_cons, List.map_nil, List.mem_singleton,
      newMappingFor] at hb
    obtain ⟨m2, hm2, hattr⟩ := List.mem_map.mp ha
    have := h.map_id_lt m2 hm2
    omega
  · intro e he i hei
    show i < db.next_mapping_id + 1
    have := h.ev_ref_lt e he i hei
    omega
  · intro m2 hm2 hst2
    rw [hevFor]
    rcases List.mem_append.mp hm2 with h1 | h1
    · exact h.audit_pending m2 h1 hst2
    · have : m2 = newMappingFor db now g s := by simpa using h1
      subst this
      refine List.filter_eq_nil_iff.mpr ?_
      intro e he hbeq
      have hei : e.mapping_id = some (newMappingFor db now g s).id :=
        beq_iff_eq.mp hbeq
      have := h.ev_ref_lt e he _ hei
      simp [newMappingFor] at this
  · intro m2 hm2 hst2
    rw [hevFor]
    rcases List.mem_append.mp hm2 with h1 | h1
    · exact h.audit_terminal m2 h1 hst2
    · have : m2 = newMappingFor db now g s := by simpa using h1
      subst this
      exact absurd rfl hst2
  · intro g2 hg2
    exact h.grp_id_lt g2 hg2
  · exact h.grp_id_nodup
  · intro g2 hg2
    exact h.grp_flag g2 hg2

/-- One import step preserves the group-side invariants. -/
theorem import_one_groups_inv (db : DB) (now : Nat) (p : PriceItemImport)
    (hlt : ∀ g ∈ db.groups, g.id < db.next_group_id)
    (hnodup : (db.groups.map (fun g => g.id)).Nodup)
    (hflag : ∀ g ∈ db.groups, g.inn_invalid = innFlagOf g.inn_norm) :
    (∀ g ∈ (import_one db now p).groups,
      g.id < (import_one db now p).next_group_id) ∧
    ((import_one db now p).groups.map (fun g => g.id)).Nodup ∧
    (∀ g ∈ (import_one db now p).groups,
      g.inn_invalid = innFlagOf g.inn_norm) := by
  cases hfind : List.find? (groupKeyMatches p.ownerId p.packetId
      (normalize_inn p.inn).1 p.std_supplier) db.groups with
  | none =>
    have hnone : ∀ g ∈ db.groups,
        groupKeyMatches p.ownerId p.packetId (normalize_inn p.inn).1
          p.std_supplier g = false := by
      intro g hg
      have := List.find?_eq_none.mp hfind g hg
      simpa using this
    obtain ⟨hgroups, hnext⟩ := import_one_creates hnone
    rw [hgroups, hnext]
    refine ⟨?_, ?_, ?_⟩
    · intro g hg
      rcases List.mem_append.mp hg with h1 | h1
      · have := hlt g h1
        omega
      · have : g = newGroupFor db now p := by simpa using h1
        subst this
        simp [newGroupFor]
    · rw [List.map_append]
      refine List.nodup_append.mpr ⟨hnodup, by simp, ?_⟩
      intro a ha hb
      simp only [List.map_cons, List.map_nil, List.mem_singleton,
        newGroupFor] at hb
      obtain ⟨g2, hg2, hattr⟩ := List.mem_map.mp ha
      have := hlt g2 hg2
      omega
    · intro g hg
      rcases List.mem_append.mp hg with h1 | h1
      · exact hflag g h1
      · have : g = newGroupFor db now p := by simpa using h1
        subst this
        rw [show (newGroupFor db now p).inn_invalid
            = (normalize_inn p.inn).2 from rfl,
          show (newGroupFor db now p).inn_norm
            = (normalize_inn p.inn).1 from rfl]
        exact normalize_inn_snd_eq_flag p.inn
  | some g0 =>
    have hg0mem : g0 ∈ db.groups := List.mem_of_find?_eq_some hfind
    have hg0key : groupKeyMatches p.ownerId p.packetId (normalize_inn p.inn).1
        p.std_supplier g0 = true := List.find?_some hfind
    have hg0inn : g0.inn_norm = (normalize_inn p.inn).1 :=
      (groupKeyMatches_iff.mp hg0key).2.2.1
    have hgroups : (import_one db now p).groups = db.groups.map (fun x =>
        if x.id == g0.id then
          { x with items_count := x.items_count + 1,
                   inn_invalid := (normalize_inn p.inn).2, updated_at := now }
        else x) := by
      simp only [import_one, hfind]
    have hnext : (import_one db now p).next_group_id = db.next_group_id := by
      simp only [import_one, hfind]
    have hxid : ∀ x, ((if x.id == g0.id then
        { x with items_count := x.items_count + 1,
                 inn_invalid := (normalize_inn p.inn).2, updated_at := now }
        else x) : PriceSupplierGroup).id = x.id := by
      intro x
      by_cases hc : x.id == g0.id <;> simp [hc]
    rw [hgroups, hnext]
    refine ⟨?_, ?_, ?_⟩
    · intro g hg
      obtain ⟨x, hx, rfl⟩ := List.mem_map.mp hg
      rw [hxid x]
      exact hlt x hx
    · rw [List.map_map]
      have heq : (db.groups.map ((fun g => g.id) ∘ (fun x =>
          if x.id == g0.id then
            { x with items_count := x.items_count + 1,
                     inn_invalid := (normalize_inn p.inn).2,
                     updated_at := now }
          else x)))
          = db.groups.map (fun g => g.id) :=
        map_congr_mem _ _ _ (fun x _ => hxid x)
      rw [heq]
      exact hnodup
    · intro g hg
      obtain ⟨x, hx, rfl⟩ := List.mem_map.mp hg
      by_cases hc : x.id == g0.id
      · have hxg : x = g0 :=
          List.inj_on_of_nodup_map hnodup hx hg0mem (beq_iff_eq.mp hc)
        subst hxg
        rw [if_pos hc]
        show (normalize_inn p.inn).2 = innFlagOf x.inn_norm
        rw [hg0inn]
        exact normalize_inn_snd_eq_flag p.inn
      · rw [if_neg hc]
        exact hflag x hx

/-- The whole import loop preserves the group-side invariants. -/
theorem foldl_import_groups_inv (items : List PriceItemImport) (db : DB)
    (now : Nat)
    (hlt : ∀ g ∈ db.groups, g.id < db.next_group_id)
    (hnodup : (db.groups.map (fun g => g.id)).Nodup)
    (hflag : ∀ g ∈ db.groups, g.inn_invalid = innFlagOf g.inn_norm) :
    (∀ g ∈ (items.foldl (fun d payload => import_one d now payload)
        db).groups,
      g.id < (items.foldl (fun d payload => import_one d now payload)
        db).next_group_id) ∧
    ((items.foldl (fun d payload => import_one d now payload)
        db).groups.map (fun g => g.id)).Nodup ∧
    (∀ g ∈ (items.foldl (fun d payload => import_one d now payload)
        db).groups,
      g.inn_invalid = innFlagOf g.inn_norm) := by
  induction items generalizing db with
  | nil => exact ⟨hlt, hnodup, hflag⟩
  | cons a t ih =>
    simp only [List.foldl_cons]
    obtain ⟨h1, h2, h3⟩ := import_one_groups_inv db now a hlt hnodup hflag
    exact ih (import_one db now a) h1 h2 h3

/-- Imports preserve the whole invariant. -/
theorem inv_import (db : DB) (now : Nat) (items : List PriceItemImport)
    (h : Inv db) : Inv (import_price_items db now items).1 := by
  have hdef : (import_price_items db now items).1
      = items.foldl (fun d payload => import_one d now payload) db := rfl
  obtain ⟨f1, f2, f3, f4, f5⟩ := foldl_import_one_frame items db now
  obtain ⟨g1, g2, g3⟩ := foldl_import_groups_inv items db now
    h.grp_id_lt h.grp_id_nodup h.grp_flag
  rw [hdef]
  have hevFor : ∀ i,
      eventsFor (items.foldl (fun d payload => import_one d now payload) db) i
      = eventsFor db i := by
    intro i
    simp [eventsFor, f2]
  refine ⟨?_, ?_, ?_, ?_, ?_, g1, g2, g3⟩
  · intro m hm
    rw [f1] at hm
    rw [f4]
    exact h.map_id_lt m hm
  · rw [f1]
    exact h.map_id_nodup
  · intro e he i hei
    rw [f2] at he
    rw [f4]
    exact h.ev_ref_lt e he i hei
  · intro m hm hst
    rw [f1] at hm
    rw [hevFor]
    exact h.audit_pending m hm hst
  · intro m hm hst
    rw [f1] at hm
    rw [hevFor]
    exact h.audit_terminal m hm hst

/-- A successful approve preserves the invariant. -/
theorem inv_approve {db : DB} {now : Nat} {admin : String} {mid : Nat}
    {db2 : DB} {r : SupplierMappingStatus}
    (hok : approve_mapping db now admin mid = .ok (db2, r)) (h : Inv db) :
    Inv db2 := by
  obtain ⟨m, hfind, hst, _, hdb2⟩ := approve_mapping_ok_inv hok
  subst hdb2
  exact inv_decide_step .APPROVED h
    (List.mem_of_find?_eq_some hfind) hst (fun x => rfl) (fun x => rfl)
    (by decide) rfl rfl

/-- A successful reject preserves the invariant. -/
theorem inv_reject {db : DB} {now : Nat} {admin : String} {mid : Nat}
    {payload : Option RejectRequest} {reason : Option String} {db2 : DB}
    {r : SupplierMappingStatus × String}
    (hok : reject_mapping db now admin mid payload reason = .ok (db2, r))
    (h : Inv db) : Inv db2 := by
  obtain ⟨m, rc, hfind, hst, _, _, _, hdb2⟩ := reject_mapping_ok_inv hok
  subst hdb2
  exact inv_decide_step .REJECTED h
    (List.mem_of_find?_eq_some hfind) hst (fun x => rfl) (fun x => rfl)
    (by decide) rfl rfl

/-- Every reachable store satisfies the invariant. -/
theorem reach_inv {db : DB} (h : Reach db) : Inv db := by
  induction h with
  | init =>
    refine ⟨?_, ?_, ?_, ?_, ?_, ?_, ?_, ?_⟩ <;>
      simp [emptyDB, eventsFor]
  | imp db now items _ ih => exact inv_import db now items ih
  | newSupplier db now payload db2 sid _ hok ih =>
    obtain ⟨a, b, c, d, e, f⟩ := create_supplier_ok_inv hok
    exact inv_frame a b c d e f ih
  | dropSupplier db sid db2 _ hok ih =>
    obtain ⟨a, b, c, d, e, f⟩ := delete_supplier_ok_inv hok
    exact inv_frame a b c d e f ih
  | propose db now o p gid sid db2 mid _ hok ih => exact inv_propose hok ih
  | approveStep db now admin mid db2 r _ hok ih => exact inv_approve hok ih
  | rejectStep db now admin mid payload reason db2 r _ hok ih =>
    exact inv_reject hok ih

/-- C2: in every reachable store, each mapping that moved out of PENDING has
exactly one ledger event naming its id with the decision equal to its
terminal status — and no event naming it with any other decision; a mapping
still PENDING has no event naming its id at all. -/
theorem moderation_audit_invariant (db : DB) (h : Reach db)
    (m : SupplierMapping) (hm : m ∈ db.mappings) :
    (db.events.filter (fun e => e.mapping_id == some m.id
        && decisionMatches m.status e.decision)).length
      = (if m.status = .PENDING then 0 else 1) ∧
    (db.events.filter (fun e => e.mapping_id == some m.id
        && !(decisionMatches m.status e.decision))).length = 0 := by
  have hi := reach_inv h
  have hsplit1 : db.events.filter (fun e => e.mapping_id == some m.id
      && decisionMatches m.status e.decision)
      = (eventsFor db m.id).filter
          (fun e => decisionMatches m.status e.decision) := by
    simp [eventsFor, List.filter_filter, Bool.and_comm]
  have hsplit2 : db.events.filter (fun e => e.mapping_id == some m.id
      && !(decisionMatches m.status e.decision))
      = (eventsFor db m.id).filter
          (fun e => !(decisionMatches m.status e.decision)) := by
    simp [eventsFor, List.filter_filter, Bool.and_comm]
  by_cases hst : m.status = .PENDING
  · have hnil := hi.audit_pending m hm hst
    rw [if_pos hst, hsplit1, hsplit2, hnil]
    exact ⟨rfl, rfl⟩
  · obtain ⟨e, heq, hdec⟩ := hi.audit_terminal m hm hst
    rw [if_neg hst, hsplit1, hsplit2, heq]
    constructor
    · simp [List.filter_cons, hdec]
    · simp [List.filter_cons, hdec]

/-- Supplier-creation payload of the demo chain. -/
def scDemo : SupplierCreate :=
  { supplier := "Acme", inn := "7701234567", kpp := none, country := none,
    city := none, address := none, url := none, branch := none }

/-- Imported row of the demo chain. -/
def rowDemo : PriceItemImport :=
  { ownerId := "A", packetId := "P", inn := some "7701234567",
    std_supplier := "Acme raw", itemId := none }

/-- Demo chain, step 1: supplier created in the fresh store. -/
def dbD1 : DB :=
  match create_supplier emptyDB 0 scDemo with
  | .ok (d, _) => d
  | .error _ => emptyDB

/-- Demo chain, step 2: one row imported. -/
def dbD2 : DB := (import_price_items dbD1 1 [rowDemo]).1

/-- Demo chain, step 3: mapping of group 1 onto supplier 1 proposed. -/
def dbD3 : DB :=
  match create_mapping dbD2 2 "A" "P" 1 1 with
  | .ok (d, _) => d
  | .error _ => emptyDB

/-- Demo chain, step 4: mapping 1 approved. -/
def dbD4 : DB :=
  match approve_mapping dbD3 3 "adm" 1 with
  | .ok (d, _) => d
  | .error _ => emptyDB

/-- Steps 1-2 of the demo chain are reachable. -/
theorem reachD2 : Reach dbD2 :=
  Reach.imp dbD1 1 [rowDemo]
    (Reach.newSupplier emptyDB 0 scDemo dbD1 1 Reach.init rfl)

/-- Step 3 of the demo chain is reachable. -/
theorem reachD3 : Reach dbD3 :=
  Reach.propose dbD2 2 "A" "P" 1 1 dbD3 1 reachD2 rfl

/-- Step 4 of the demo chain is reachable. -/
theorem reachD4 : Reach dbD4 :=
  Reach.approveStep dbD3 3 "adm" 1 dbD4 .APPROVED reachD3 rfl

/-- The PENDING mapping present in dbD3. -/
def mDemoP : SupplierMapping :=
  { id := 1, group_id := 1, canonical_supplier_id := 1, owner_id := "A",
    packet_id := "P", status := .PENDING, created_at := 2, updated_at := 2,
    approved_at := none, approved_by := none, rejected_at := none,
    rejected_by := none, reject_reason := none,
    std_supplier_raw := "Acme raw", inn_norm := some "7701234567" }

/-- The APPROVED mapping present in dbD4. -/
def mDemoA : SupplierMapping := applyApprove 3 "adm" mDemoP

theorem moderation_audit_invariant_witness :
    ((dbD4.events.filter (fun e => e.mapping_id == some mDemoA.id
        && decisionMatches mDemoA.status e.decision)).length
      = (if mDemoA.status = .PENDING then 0 else 1) ∧
     (dbD4.events.filter (fun e => e.mapping_id == some mDemoA.id
        && !(decisionMatches mDemoA.status e.decision))).length = 0) ∧
    ((dbD3.events.filter (fun e => e.mapping_id == some mDemoP.id
        && decisionMatches mDemoP.status e.decision)).length
      = (if mDemoP.status = .PENDING then 0 else 1) ∧
     (dbD3.events.filter (fun e => e.mapping_id == some mDemoP.id
        && !(decisionMatches mDemoP.status e.decision))).length = 0) :=
  ⟨moderation_audit_invariant dbD4 reachD4 mDemoA (by decide),
   moderation_audit_invariant dbD3 reachD3 mDemoP (by decide)⟩

/-- C10: every group of a reachable store carries inn_invalid = true exactly
when its normalized INN is null or its length is neither 10 nor 12; group
creation establishes it and every import refresh preserves it, since flag
and key always come from one normalizer output. -/
theorem group_invalid_flag_invariant (db : DB) (h : Reach db)
    (g : PriceSupplierGroup) (hg : g ∈ db.groups) :
    g.inn_invalid = true ↔
      (g.inn_norm = none ∨
        ∀ s, g.inn_norm = some s → s.length ≠ 10 ∧ s.length ≠ 12) := by
  have hflag := (reach_inv h).grp_flag g hg
  rw [hflag]
  cases hn : g.inn_norm with
  | none => simp [innFlagOf]
  | some s =>
    simp only [innFlagOf, decide_eq_true_eq, Option.some.injEq]
    constructor
    · intro hd
      refine Or.inr ?_
      intro t ht
      cases ht
      exact hd
    · intro hall
      rcases hall with hnone | hall
      · cases hnone
      · exact hall s rfl

/-- The group present in dbD2. -/
def gDemo : PriceSupplierGroup :=
  { id := 1, owner_id := "A", packet_id := "P",
    inn_norm := some "7701234567", std_supplier_raw := "Acme raw",
    items_count := 1, inn_invalid := false, created_at := 1, updated_at := 1 }

theorem group_invalid_flag_invariant_witness :
    (gDemo.inn_invalid = true ↔
      (gDemo.inn_norm = none ∨
        ∀ s, gDemo.inn_norm = some s → s.length ≠ 10 ∧ s.length ≠ 12)) :=
  group_invalid_flag_invariant dbD2 reachD2 gDemo (by decide)

end SupplierMatchingMVP
